import Mathlib

/-!
Shallow embedding of the free-time-slot analyzer of
`src/itinerary_ai_service.py` (functions `analyze_free_time_slots`,
`find_daily_free_slots`, `time_to_minutes`) together with proofs of the
specification's testable properties.

Modelling conventions:
* Calendar dates (`datetime.date`) are modelled as integers (day numbers);
  `date + timedelta(days=1)` becomes `d + 1` and date comparison is `≤` on `Int`.
* Python strings are modelled as Lean `String`s; Python's `<` on strings is
  lexicographic comparison of code points, embedded as `strLt` below.
* `datetime.strptime(time_str, "%H:%M")` is embedded as `parseHM`: the CPython
  `_strptime` regex for this format is `(2[0-3]|[0-1]\d|\d):([0-5]\d|\d)`
  anchored at both ends (the library raises unless the match consumes the whole
  string).  The `\d` class is modelled as the ASCII digits `0`–`9`.
* Python's `sorted`/`list.sort` is a stable sort; it is embedded as
  `List.insertionSort` (also stable) with the corresponding boolean key order.
* Python integers are modelled as `Int`.
-/

namespace ItineraryAI

/-- ASCII digit test (models the regex class `\d` on ASCII input). -/
def isDig (c : Char) : Bool := 48 ≤ c.toNat && c.toNat ≤ 57

/-- Numeric value of a digit character (`'0'` ↦ 0, …, `'9'` ↦ 9). -/
def dval (c : Char) : Int := (c.toNat : Int) - 48

/-- Full-string match of the CPython `"%H:%M"` pattern
`(2[0-3]|[0-1]\d|\d):([0-5]\d|\d)`, returning the hour and minute values.
A two-digit hour group matches exactly the strings of value ≤ 23 and a
two-digit minute group exactly those whose first digit is ≤ 5. -/
def parseHM : List Char → Option (Int × Int)
  | [x1, x2, x3] =>
    if x2 = ':' && isDig x1 && isDig x3 then some (dval x1, dval x3) else none
  | [x1, x2, x3, x4] =>
    if x3 = ':' && isDig x1 && isDig x2 && isDig x4 && decide (10 * dval x1 + dval x2 ≤ 23) then
      some (10 * dval x1 + dval x2, dval x4)
    else if x2 = ':' && isDig x1 && isDig x3 && isDig x4 && decide (dval x3 ≤ 5) then
      some (dval x1, 10 * dval x3 + dval x4)
    else none
  | [x1, x2, x3, x4, x5] =>
    if x3 = ':' && isDig x1 && isDig x2 && decide (10 * dval x1 + dval x2 ≤ 23) && isDig x4
        && isDig x5 && decide (dval x4 ≤ 5) then
      some (10 * dval x1 + dval x2, 10 * dval x4 + dval x5)
    else none
  | _ => none

/-- `time_to_minutes` from `itinerary_ai_service.py`: convert an `HH:MM` string
to minutes since midnight, returning `0` whenever `strptime` would raise
(the Python body catches every exception and returns `0`). -/
def time_to_minutes (s : String) : Int :=
  match parseHM s.data with
  | some (h, m) => h * 60 + m
  | none => 0

/-- Lexicographic code-point comparison of character lists: Python's `<` on
strings. -/
def charListLt : List Char → List Char → Bool
  | _, [] => false
  | [], _ :: _ => true
  | a :: as, b :: bs =>
    if a.toNat < b.toNat then true
    else if b.toNat < a.toNat then false
    else charListLt as bs

/-- Python's `<` on strings (lexicographic by code point). -/
def strLt (a b : String) : Bool := charListLt a.data b.data

/-- A booking row as consumed by the analyzer: only the four date/time fields
are read (`booking_type`, `title`, … are never touched by the analyzer). -/
structure Booking where
  start_date : Int
  end_date : Int
  start_time : String
  end_time : String
deriving DecidableEq, Repr

/-- Output record of the analyzer. -/
structure FreeTimeSlot where
  start_time : String
  end_time : String
  duration_minutes : Int
  context : String
deriving DecidableEq, Repr

/-- Key order used by `sorted(bookings, key=lambda x: (x['start_date'], x['start_time']))`:
`x` may stay before `y` iff the key of `y` is not strictly smaller. -/
def keyLe (x y : Booking) : Bool :=
  if x.start_date < y.start_date then true
  else if y.start_date < x.start_date then false
  else !(strLt y.start_time x.start_time)

/-- Key order used by `day_bookings.sort(key=lambda x: x['start_time'])`. -/
def timeLe (x y : Booking) : Bool := !(strLt y.start_time x.start_time)

/-- `sorted(bookings, key=lambda x: (x['start_date'], x['start_time']))` —
a stable sort by the date/time key. -/
def sortBookings (l : List Booking) : List Booking :=
  l.insertionSort (fun x y => keyLe x y = true)

/-- `day_bookings.sort(key=lambda x: x['start_time'])` — a stable sort by
start time. -/
def sortByStart (l : List Booking) : List Booking :=
  l.insertionSort (fun x y => timeLe x y = true)

/-- Morning part of `find_daily_free_slots`: free time before the first
booking of the (sorted) day, emitted only when at least 60 minutes. -/
def morningSlots : List Booking → List FreeTimeSlot
  | [] => []
  | first_booking :: _ =>
    if strLt "09:00" first_booking.start_time then
      let duration := time_to_minutes first_booking.start_time - time_to_minutes "09:00"
      if 60 ≤ duration then
        [⟨"09:00", first_booking.start_time, duration, "Morning free time"⟩]
      else []
    else []

/-- Gap part of `find_daily_free_slots`: the loop
`for i in range(len(day_bookings) - 1)` over consecutive pairs of the
(sorted) day bookings. -/
def gapSlots : List Booking → List FreeTimeSlot
  | a :: b :: t =>
    (if strLt a.end_time b.start_time then
      if 60 ≤ time_to_minutes b.start_time - time_to_minutes a.end_time then
        [⟨a.end_time, b.start_time,
          time_to_minutes b.start_time - time_to_minutes a.end_time, "Gap between bookings"⟩]
      else []
    else []) ++ gapSlots (b :: t)
  | _ => []

/-- Evening part of `find_daily_free_slots`: free time after the last booking
(`day_bookings[-1]`) of the day, emitted only when at least 60 minutes. -/
def eveningSlots (l : List Booking) : List FreeTimeSlot :=
  match l.getLast? with
  | none => []
  | some last_booking =>
    if strLt last_booking.end_time "22:00" then
      let duration := time_to_minutes "22:00" - time_to_minutes last_booking.end_time
      if 60 ≤ duration then
        [⟨last_booking.end_time, "22:00", duration, "Evening free time"⟩]
      else []
    else []

/-- `find_daily_free_slots` from `itinerary_ai_service.py`: sort the day's
bookings by start time and emit morning, inter-booking and evening free
slots in that order.  (The Python `date` parameter is unused by the body and
omitted here.) -/
def find_daily_free_slots (day_bookings : List Booking) : List FreeTimeSlot :=
  morningSlots (sortByStart day_bookings) ++ gapSlots (sortByStart day_bookings) ++
    eveningSlots (sortByStart day_bookings)

/-- Python `min` over a non-empty sequence (the `[]` case is unreachable under
the analyzer's non-empty guard). -/
def pyMin : List Int → Int
  | [] => 0
  | x :: t => t.foldl min x

/-- Python `max` over a non-empty sequence (the `[]` case is unreachable under
the analyzer's non-empty guard). -/
def pyMax : List Int → Int
  | [] => 0
  | x :: t => t.foldl max x

/-- The `while current_date <= end_date` loop cursor: every day of the
inclusive range `[first, last]`, in increasing order, one step per day. -/
def dayList (first last : Int) : List Int :=
  (List.range (last + 1 - first).toNat).map (fun i : Nat => first + (i : Int))

/-- The slot emitted for a day with no overlapping bookings. -/
def freeDaySlot : FreeTimeSlot :=
  ⟨"09:00", "18:00", 540, "Free day - no bookings scheduled"⟩

/-- The trip span of a booking list: every day from the minimum `start_date`
to the maximum `end_date` (computed over the sorted bookings, as in the
Python source). -/
def tripDays (bookings : List Booking) : List Int :=
  dayList (pyMin ((sortBookings bookings).map (·.start_date)))
    (pyMax ((sortBookings bookings).map (·.end_date)))

/-- `[b for b in sorted_bookings if b['start_date'] <= current_date <= b['end_date']]`. -/
def dayBookings (bookings : List Booking) (d : Int) : List Booking :=
  (sortBookings bookings).filter (fun b => b.start_date ≤ d && d ≤ b.end_date)

/-- Per-day body of the `while` loop of `analyze_free_time_slots`: a day with
no bookings contributes the single full-day slot, otherwise the day's slots
come from `find_daily_free_slots`. -/
def dayProcess (bookings : List Booking) (d : Int) : List FreeTimeSlot :=
  if (dayBookings bookings d).isEmpty then [freeDaySlot]
  else find_daily_free_slots (dayBookings bookings d)

/-- `analyze_free_time_slots` from `itinerary_ai_service.py`: empty input
yields no slots; otherwise every day of the trip span contributes its slots
in day order (the `while` loop appends each day's slots to `free_slots`). -/
def analyze_free_time_slots : List Booking → List FreeTimeSlot
  | [] => []
  | b :: rest => (tripDays (b :: rest)).flatMap (dayProcess (b :: rest))

/-- Zero-padded 24-hour `HH:MM` well-formedness (`"09:30"`, `"22:00"`, …). -/
def validHM (s : String) : Bool :=
  match s.data with
  | [h1, h2, ':', m1, m2] =>
    isDig h1 && isDig h2 && isDig m1 && isDig m2 &&
      decide (10 * dval h1 + dval h2 ≤ 23) && decide (dval m1 ≤ 5)
  | _ => false

/-- Value of a digit string read left to right (vocabulary for the amended
time-parsing claim, independent of `parseHM`). -/
def digitsVal (l : List Char) : Int := l.foldl (fun acc c => 10 * acc + dval c) 0

/-- An acceptable hour field: one or two ASCII digits, value at most 23
(zero padding not required). -/
def validHourStr : List Char → Bool
  | [c] => isDig c
  | [c1, c2] => isDig c1 && isDig c2 && decide (10 * dval c1 + dval c2 ≤ 23)
  | _ => false

/-- An acceptable minute field: one or two ASCII digits, value at most 59
(zero padding not required). -/
def validMinuteStr : List Char → Bool
  | [c] => isDig c
  | [c1, c2] => isDig c1 && isDig c2 && decide (10 * dval c1 + dval c2 ≤ 59)
  | _ => false

/-- Does the slot, restricted to the `09:00`–`22:00` day window, overlap the
time interval `[start_time, end_time]` occupied by the booking?  Intervals
are compared after conversion to minutes since midnight; an overlap is a
common sub-interval of positive length. -/
def slotOverlapsBooking (s : FreeTimeSlot) (b : Booking) : Bool :=
  decide (max (max 540 (time_to_minutes s.start_time)) (time_to_minutes b.start_time) <
    min (min 1320 (time_to_minutes s.end_time)) (time_to_minutes b.end_time))

theorem mem_morningSlots {L : List Booking} {s : FreeTimeSlot} (h : s ∈ morningSlots L) :
    s.context = "Morning free time" ∧ 60 ≤ s.duration_minutes ∧
      s.duration_minutes = time_to_minutes s.end_time - time_to_minutes s.start_time := by
  cases L with
  | nil => simp [morningSlots] at h
  | cons fb t =>
    unfold morningSlots at h
    by_cases h1 : strLt "09:00" fb.start_time
    · by_cases h2 : 60 ≤ time_to_minutes fb.start_time - time_to_minutes "09:00"
      · simp [h1, h2] at h
        subst h
        exact ⟨rfl, h2, rfl⟩
      · simp [h1, h2] at h
    · simp [h1] at h

theorem mem_gapSlots_basic : ∀ {L : List Booking} {s : FreeTimeSlot}, s ∈ gapSlots L →
    s.context = "Gap between bookings" ∧ 60 ≤ s.duration_minutes ∧
      s.duration_minutes = time_to_minutes s.end_time - time_to_minutes s.start_time := by
  intro L
  induction L with
  | nil => intro s h; simp [gapSlots] at h
  | cons a t ih =>
    intro s h
    cases t with
    | nil => simp [gapSlots] at h
    | cons b t2 =>
      unfold gapSlots at h
      rw [List.mem_append] at h
      rcases h with h | h
      · by_cases h1 : strLt a.end_time b.start_time
        · by_cases h2 : 60 ≤ time_to_minutes b.start_time - time_to_minutes a.end_time
          · simp [h1, h2] at h
            subst h
            exact ⟨rfl, h2, rfl⟩
          · simp [h1, h2] at h
        · simp [h1] at h
      · exact ih h

theorem mem_eveningSlots {L : List Booking} {s : FreeTimeSlot} (h : s ∈ eveningSlots L) :
    s.context = "Evening free time" ∧ 60 ≤ s.duration_minutes ∧
      s.duration_minutes = time_to_minutes s.end_time - time_to_minutes s.start_time := by
  unfold eveningSlots at h
  split at h
  · simp at h
  · rename_i lb heq
    by_cases h1 : strLt lb.end_time "22:00"
    · by_cases h2 : 60 ≤ time_to_minutes "22:00" - time_to_minutes lb.end_time
      · simp [h1, h2] at h
        subst h
        exact ⟨rfl, h2, rfl⟩
      · simp [h1, h2] at h
    · simp [h1] at h

theorem mem_find_daily {L : List Booking} {s : FreeTimeSlot}
    (h : s ∈ find_daily_free_slots L) :
    s ∈ morningSlots (sortByStart L) ∨ s ∈ gapSlots (sortByStart L) ∨
      s ∈ eveningSlots (sortByStart L) := by
  unfold find_daily_free_slots at h
  rw [List.mem_append, List.mem_append] at h
  tauto

theorem mem_dayProcess {bookings : List Booking} {d : Int} {s : FreeTimeSlot}
    (h : s ∈ dayProcess bookings d) :
    s = freeDaySlot ∨ s ∈ morningSlots (sortByStart (dayBookings bookings d)) ∨
      s ∈ gapSlots (sortByStart (dayBookings bookings d)) ∨
      s ∈ eveningSlots (sortByStart (dayBookings bookings d)) := by
  unfold dayProcess at h
  split at h
  · simp at h; exact Or.inl h
  · exact Or.inr (mem_find_daily h)

theorem mem_analyze {bookings : List Booking} {s : FreeTimeSlot}
    (h : s ∈ analyze_free_time_slots bookings) :
    ∃ d ∈ tripDays bookings, s ∈ dayProcess bookings d := by
  cases bookings with
  | nil => simp [analyze_free_time_slots] at h
  | cons b rest =>
    unfold analyze_free_time_slots at h
    exact List.mem_flatMap.mp h

theorem charListLt_asymm : ∀ as bs : List Char,
    charListLt as bs = true → charListLt bs as = false
  | [], [] => by intro h; simp [charListLt] at h
  | [], b :: bs => by intro h; rfl
  | a :: as, [] => by intro h; simp [charListLt] at h
  | a :: as, b :: bs => by
    intro h
    unfold charListLt at h ⊢
    by_cases h1 : a.toNat < b.toNat
    · rw [if_neg (by omega), if_pos h1]
    · by_cases h2 : b.toNat < a.toNat
      · rw [if_neg h1, if_pos h2] at h
        exact absurd h (by simp)
      · rw [if_neg h1, if_neg h2] at h
        rw [if_neg h2, if_neg h1]
        exact charListLt_asymm as bs h

theorem charListLt_cotrans : ∀ as bs cs : List Char, charListLt as cs = true →
    charListLt as bs = true ∨ charListLt bs cs = true
  | as, bs, [] => by
    intro h
    cases as <;> simp [charListLt] at h
  | [], bs, c :: cs => by
    intro h
    cases bs with
    | nil => exact Or.inr rfl
    | cons b bs => exact Or.inl rfl
  | a :: as, bs, c :: cs => by
    intro h
    cases bs with
    | nil => exact Or.inr rfl
    | cons b bs =>
      unfold charListLt at h ⊢
      by_cases hab : a.toNat < b.toNat
      · left; rw [if_pos hab]
      · by_cases hbc : b.toNat < c.toNat
        · right; rw [if_pos hbc]
        · by_cases hac : a.toNat < c.toNat
          · exact absurd hac (by omega)
          · by_cases hca : c.toNat < a.toNat
            · rw [if_neg hac, if_pos hca] at h
              exact absurd h (by simp)
            · rw [if_neg hac, if_neg hca] at h
              have hba : ¬ b.toNat < a.toNat := by omega
              have hcb : ¬ c.toNat < b.toNat := by omega
              rcases charListLt_cotrans as bs cs h with h3 | h3
              · left; rw [if_neg hab, if_neg hba]; exact h3
              · right; rw [if_neg hbc, if_neg hcb]; exact h3

theorem strLt_asymm {a b : String} (h : strLt a b = true) : strLt b a = false :=
  charListLt_asymm _ _ h

theorem strLt_cotrans {a c : String} (b : String) (h : strLt a c = true) :
    strLt a b = true ∨ strLt b c = true :=
  charListLt_cotrans _ _ _ h

theorem strLt_neg_trans {a b c : String} (h1 : strLt b a = false)
    (h2 : strLt c b = false) : strLt c a = false := by
  cases hca : strLt c a
  · rfl
  · rcases strLt_cotrans b hca with h3 | h3
    · rw [h3] at h2; exact absurd h2 (by simp)
    · rw [h3] at h1; exact absurd h1 (by simp)

theorem sortByStart_sorted (l : List Booking) :
    (sortByStart l).Pairwise (fun x y => timeLe x y = true) := by
  haveI htot : IsTotal Booking (fun x y => timeLe x y = true) := ⟨by
    intro x y
    unfold timeLe
    cases h : strLt y.start_time x.start_time
    · left; rfl
    · right; rw [strLt_asymm h]; rfl⟩
  haveI htr : IsTrans Booking (fun x y => timeLe x y = true) := ⟨by
    intro x y z hxy hyz
    unfold timeLe at hxy hyz ⊢
    rw [Bool.not_eq_true'] at hxy hyz ⊢
    exact strLt_neg_trans hxy hyz⟩
  exact List.sorted_insertionSort _ _

theorem sortBookings_sorted (l : List Booking) :
    (sortBookings l).Pairwise (fun x y => keyLe x y = true) := by
  haveI htot : IsTotal Booking (fun x y => keyLe x y = true) := ⟨by
    intro x y
    unfold keyLe
    by_cases h1 : x.start_date < y.start_date
    · left; rw [if_pos h1]
    · by_cases h2 : y.start_date < x.start_date
      · right; rw [if_pos h2]
      · cases h : strLt y.start_time x.start_time
        · left
          rw [if_neg h1, if_neg h2]
          rfl
        · right
          rw [if_neg h2, if_neg h1, strLt_asymm h]
          rfl⟩
  haveI htr : IsTrans Booking (fun x y => keyLe x y = true) := ⟨by
    intro x y z hxy hyz
    unfold keyLe at hxy hyz ⊢
    by_cases hxz : x.start_date < z.start_date
    · rw [if_pos hxz]
    · by_cases h1 : x.start_date < y.start_date
      · have hzy : z.start_date < y.start_date := by
          by_cases h2 : y.start_date < z.start_date
          · exact absurd (by omega : x.start_date < z.start_date) hxz
          · by_cases h2' : z.start_date < y.start_date
            · exact h2'
            · exact absurd (by omega : x.start_date < z.start_date) hxz
        rw [if_neg (by omega), if_pos hzy] at hyz
        exact absurd hyz (by simp)
      · by_cases h1' : y.start_date < x.start_date
        · rw [if_neg h1, if_pos h1'] at hxy
          exact absurd hxy (by simp)
        · by_cases h2 : y.start_date < z.start_date
          · exact absurd (by omega : x.start_date < z.start_date) hxz
          · by_cases h2' : z.start_date < y.start_date
            · rw [if_neg h2, if_pos h2'] at hyz
              exact absurd hyz (by simp)
            · rw [if_neg hxz, if_neg (by omega)]
              rw [if_neg h1, if_neg h1'] at hxy
              rw [if_neg h2, if_neg h2'] at hyz
              rw [Bool.not_eq_true'] at hxy hyz ⊢
              exact strLt_neg_trans hxy hyz⟩
  exact List.sorted_insertionSort _ _

theorem mem_sortByStart {l : List Booking} {b : Booking} :
    b ∈ sortByStart l ↔ b ∈ l :=
  List.mem_insertionSort _

theorem mem_sortBookings {l : List Booking} {b : Booking} :
    b ∈ sortBookings l ↔ b ∈ l :=
  List.mem_insertionSort _

theorem mem_dayBookings {bookings : List Booking} {d : Int} {b : Booking}
    (h : b ∈ dayBookings bookings d) : b ∈ bookings := by
  unfold dayBookings at h
  exact mem_sortBookings.mp (List.mem_of_mem_filter h)

theorem isDig_toNat {c : Char} (h : isDig c = true) : 48 ≤ c.toNat ∧ c.toNat ≤ 57 := by
  unfold isDig at h
  rw [Bool.and_eq_true, decide_eq_true_iff, decide_eq_true_iff] at h
  exact h

theorem validHM_shape {s : String} (hv : validHM s = true) :
    ∃ h1 h2 m1 m2, s.data = [h1, h2, ':', m1, m2] ∧ isDig h1 = true ∧ isDig h2 = true ∧
      isDig m1 = true ∧ isDig m2 = true ∧ 10 * dval h1 + dval h2 ≤ 23 ∧ dval m1 ≤ 5 ∧
      time_to_minutes s = (10 * dval h1 + dval h2) * 60 + (10 * dval m1 + dval m2) := by
  unfold validHM at hv
  split at hv
  · rename_i h1 h2 m1 m2 heq
    rw [Bool.and_eq_true, Bool.and_eq_true, Bool.and_eq_true, Bool.and_eq_true,
      Bool.and_eq_true, decide_eq_true_iff, decide_eq_true_iff] at hv
    obtain ⟨⟨⟨⟨⟨hd1, hd2⟩, hd3⟩, hd4⟩, hle⟩, hm5⟩ := hv
    refine ⟨h1, h2, m1, m2, heq, hd1, hd2, hd3, hd4, hle, hm5, ?_⟩
    unfold time_to_minutes
    rw [heq]
    simp [parseHM, hd1, hd2, hd3, hd4, hle, hm5]
  · exact absurd hv (by simp)

set_option maxHeartbeats 1600000 in
theorem validHM_lt_iff {a b : String} (ha : validHM a = true) (hb : validHM b = true) :
    strLt a b = true ↔ time_to_minutes a < time_to_minutes b := by
  obtain ⟨p1, p2, p3, p4, hpa, hp1, hp2, hp3, hp4, hple, hp5, hta⟩ := validHM_shape ha
  obtain ⟨q1, q2, q3, q4, hqa, hq1, hq2, hq3, hq4, hqle, hq5, htb⟩ := validHM_shape hb
  obtain ⟨hp1a, hp1b⟩ := isDig_toNat hp1
  obtain ⟨hp2a, hp2b⟩ := isDig_toNat hp2
  obtain ⟨hp3a, hp3b⟩ := isDig_toNat hp3
  obtain ⟨hp4a, hp4b⟩ := isDig_toNat hp4
  obtain ⟨hq1a, hq1b⟩ := isDig_toNat hq1
  obtain ⟨hq2a, hq2b⟩ := isDig_toNat hq2
  obtain ⟨hq3a, hq3b⟩ := isDig_toNat hq3
  obtain ⟨hq4a, hq4b⟩ := isDig_toNat hq4
  rw [hta, htb]
  unfold strLt
  rw [hpa, hqa]
  simp only [charListLt, dval] at hple hp5 hqle hq5 ⊢
  constructor
  · intro h
    split_ifs at h
    all_goals simp at h
    all_goals omega
  · intro h
    split_ifs
    all_goals first | rfl | (exfalso; omega)

theorem validHM_le_iff {a b : String} (ha : validHM a = true) (hb : validHM b = true) :
    strLt a b = false ↔ time_to_minutes b ≤ time_to_minutes a := by
  have hiff := validHM_lt_iff ha hb
  constructor
  · intro h
    by_contra hc
    have h2 := hiff.mpr (by omega)
    rw [h] at h2
    exact absurd h2 (by simp)
  · intro h
    cases hlt : strLt a b
    · rfl
    · have := hiff.mp hlt
      omega

theorem mem_gapSlots_iff : ∀ (S : List Booking) (s : FreeTimeSlot),
    s ∈ gapSlots S ↔ ∃ i x y, S[i]? = some x ∧ S[i + 1]? = some y ∧
      strLt x.end_time y.start_time = true ∧
      60 ≤ time_to_minutes y.start_time - time_to_minutes x.end_time ∧
      s = ⟨x.end_time, y.start_time,
        time_to_minutes y.start_time - time_to_minutes x.end_time, "Gap between bookings"⟩
  | [], s => by
    constructor
    · intro h; simp [gapSlots] at h
    · rintro ⟨i, x, y, h1, -⟩
      simp at h1
  | [a], s => by
    constructor
    · intro h; simp [gapSlots] at h
    · rintro ⟨i, x, y, h1, h2, -⟩
      rw [List.getElem?_cons_succ] at h2
      simp at h2
  | a :: b :: t, s => by
    unfold gapSlots
    rw [List.mem_append, mem_gapSlots_iff (b :: t) s]
    constructor
    · rintro (h | ⟨i, x, y, h1, h2, h3, h4, h5⟩)
      · refine ⟨0, a, b, by simp, by simp, ?_⟩
        by_cases hc : strLt a.end_time b.start_time
        · by_cases hd : 60 ≤ time_to_minutes b.start_time - time_to_minutes a.end_time
          · simp [hc, hd] at h
            exact ⟨hc, hd, h⟩
          · simp [hc, hd] at h
        · simp [hc] at h
      · refine ⟨i + 1, x, y, ?_, ?_, h3, h4, h5⟩
        · rw [List.getElem?_cons_succ]; exact h1
        · rw [List.getElem?_cons_succ]; exact h2
    · rintro ⟨i, x, y, h1, h2, h3, h4, h5⟩
      cases i with
      | zero =>
        left
        simp at h1 h2
        subst h1; subst h2
        simp [h3, h4, h5]
      | succ j =>
        right
        refine ⟨j, x, y, ?_, ?_, h3, h4, h5⟩
        · rw [List.getElem?_cons_succ] at h1; exact h1
        · rw [List.getElem?_cons_succ] at h2; exact h2

theorem slotOverlapsBooking_eq_false {s : FreeTimeSlot} {b : Booking}
    (h : min (min 1320 (time_to_minutes s.end_time)) (time_to_minutes b.end_time) ≤
      max (max 540 (time_to_minutes s.start_time)) (time_to_minutes b.start_time)) :
    slotOverlapsBooking s b = false := by
  unfold slotOverlapsBooking
  rw [decide_eq_false_iff_not]
  omega

theorem startle_of_facts {S : List Booking}
    (hval : ∀ b ∈ S, validHM b.start_time = true ∧ validHM b.end_time = true)
    (hse : ∀ b ∈ S, strLt b.end_time b.start_time = false) :
    ∀ b ∈ S, time_to_minutes b.start_time ≤ time_to_minutes b.end_time := by
  intro b hb
  have hv := hval b hb
  exact (validHM_le_iff hv.2 hv.1).mp (hse b hb)

theorem sorted_starts_get {S : List Booking}
    (hval : ∀ b ∈ S, validHM b.start_time = true ∧ validHM b.end_time = true)
    (hsort : S.Pairwise (fun x y => timeLe x y = true)) :
    ∀ (i j : Fin S.length), i ≤ j →
      time_to_minutes (S.get i).start_time ≤ time_to_minutes (S.get j).start_time := by
  intro i j hij
  rcases eq_or_lt_of_le hij with heq | hlt
  · rw [heq]
  · have hrel := List.pairwise_iff_get.mp hsort i j hlt
    unfold timeLe at hrel
    rw [Bool.not_eq_true'] at hrel
    exact (validHM_le_iff (hval _ (List.get_mem S j.1 j.2)).1
      (hval _ (List.get_mem S i.1 i.2)).1).mp hrel

theorem chain_ends_get {S : List Booking}
    (hval : ∀ b ∈ S, validHM b.start_time = true ∧ validHM b.end_time = true)
    (hse : ∀ b ∈ S, strLt b.end_time b.start_time = false)
    (hsep : S.Chain' (fun x y => strLt y.start_time x.end_time = false)) :
    ∀ (i j : Fin S.length), i ≤ j →
      time_to_minutes (S.get i).end_time ≤ time_to_minutes (S.get j).end_time := by
  have hstep : ∀ (k : Nat) (hk1 : k < S.length) (hk2 : k + 1 < S.length),
      time_to_minutes (S.get ⟨k, hk1⟩).end_time ≤
        time_to_minutes (S.get ⟨k + 1, hk2⟩).end_time := by
    intro k hk1 hk2
    have hc := List.chain'_iff_get.mp hsep k (by omega)
    have hv1 := hval _ (List.get_mem S k hk1)
    have hv2 := hval _ (List.get_mem S (k + 1) hk2)
    have h1 : time_to_minutes (S.get ⟨k, hk1⟩).end_time ≤
        time_to_minutes (S.get ⟨k + 1, hk2⟩).start_time :=
      (validHM_le_iff hv2.1 hv1.2).mp hc
    have h2 : time_to_minutes (S.get ⟨k + 1, hk2⟩).start_time ≤
        time_to_minutes (S.get ⟨k + 1, hk2⟩).end_time :=
      (validHM_le_iff hv2.2 hv2.1).mp (hse _ (List.get_mem S (k + 1) hk2))
    omega
  intro i j hij
  rw [Fin.le_def] at hij
  obtain ⟨n, hn⟩ : ∃ n, j.1 = i.1 + n := ⟨j.1 - i.1, by omega⟩
  clear hij
  induction n generalizing j with
  | zero =>
    have hij2 : i = j := Fin.ext (by omega)
    rw [hij2]
  | succ n ih =>
    have hlt : i.1 + n < S.length := by omega
    have hmid := ih ⟨i.1 + n, hlt⟩ rfl
    have hlt2 : i.1 + n + 1 < S.length := by omega
    have hstep2 := hstep (i.1 + n) hlt hlt2
    have hfin : (⟨i.1 + n + 1, hlt2⟩ : Fin S.length) = j :=
      Fin.ext (show i.1 + n + 1 = j.1 by omega)
    rw [← hfin]
    exact le_trans hmid hstep2

theorem mem_morningSlots_shape {L : List Booking} {s : FreeTimeSlot}
    (h : s ∈ morningSlots L) :
    ∃ fb tl, L = fb :: tl ∧ strLt "09:00" fb.start_time = true ∧
      60 ≤ time_to_minutes fb.start_time - time_to_minutes "09:00" ∧
      s = ⟨"09:00", fb.start_time,
        time_to_minutes fb.start_time - time_to_minutes "09:00", "Morning free time"⟩ := by
  cases L with
  | nil => simp [morningSlots] at h
  | cons fb t =>
    unfold morningSlots at h
    by_cases h1 : strLt "09:00" fb.start_time
    · by_cases h2 : 60 ≤ time_to_minutes fb.start_time - time_to_minutes "09:00"
      · simp [h1, h2] at h
        exact ⟨fb, t, rfl, h1, h2, h⟩
      · simp [h1, h2] at h
    · simp [h1] at h

theorem mem_eveningSlots_shape {L : List Booking} {s : FreeTimeSlot}
    (h : s ∈ eveningSlots L) :
    ∃ z, L.getLast? = some z ∧ strLt z.end_time "22:00" = true ∧
      60 ≤ time_to_minutes "22:00" - time_to_minutes z.end_time ∧
      s = ⟨z.end_time, "22:00", time_to_minutes "22:00" - time_to_minutes z.end_time,
        "Evening free time"⟩ := by
  unfold eveningSlots at h
  split at h
  · simp at h
  · rename_i z heq
    by_cases h1 : strLt z.end_time "22:00"
    · by_cases h2 : 60 ≤ time_to_minutes "22:00" - time_to_minutes z.end_time
      · simp [h1, h2] at h
        exact ⟨z, heq, h1, h2, h⟩
      · simp [h1, h2] at h
    · simp [h1] at h

theorem daySlots_no_overlap {S : List Booking}
    (hval : ∀ b ∈ S, validHM b.start_time = true ∧ validHM b.end_time = true)
    (hse : ∀ b ∈ S, strLt b.end_time b.start_time = false)
    (hsort : S.Pairwise (fun x y => timeLe x y = true))
    (hsep : S.Chain' (fun x y => strLt y.start_time x.end_time = false)) :
    ∀ s ∈ morningSlots S ++ gapSlots S ++ eveningSlots S, ∀ b ∈ S,
      slotOverlapsBooking s b = false := by
  intro s hs b hb
  obtain ⟨jb, hjb⟩ := List.mem_iff_get.mp hb
  rw [List.mem_append, List.mem_append] at hs
  rcases hs with (hm | hg) | hev
  · obtain ⟨fb, tl, hS, hgt, hdur, hseq⟩ := mem_morningSlots_shape hm
    have e1 : s.start_time = "09:00" := by rw [hseq]
    have e2 : s.end_time = fb.start_time := by rw [hseq]
    have h0 : (0 : Nat) < S.length := by rw [hS]; simp
    have hfb : S.get ⟨0, h0⟩ = fb := by
      subst hS
      rfl
    have hle : time_to_minutes fb.start_time ≤ time_to_minutes b.start_time := by
      have := sorted_starts_get hval hsort ⟨0, h0⟩ jb
        (by rw [Fin.le_def]; exact Nat.zero_le _)
      rw [hfb, hjb] at this
      exact this
    apply slotOverlapsBooking_eq_false
    rw [e1, e2, (by decide : time_to_minutes "09:00" = 540)]
    omega
  · rw [mem_gapSlots_iff] at hg
    obtain ⟨i, x, y, hx, hy, hlt, hdur, hseq⟩ := hg
    obtain ⟨hxlt, hxe⟩ := List.getElem?_eq_some_iff.mp hx
    obtain ⟨hylt, hye⟩ := List.getElem?_eq_some_iff.mp hy
    have e1 : s.start_time = x.end_time := by rw [hseq]
    have e2 : s.end_time = y.start_time := by rw [hseq]
    apply slotOverlapsBooking_eq_false
    rw [e1, e2]
    by_cases hj : jb.1 ≤ i
    · have hends := chain_ends_get hval hse hsep jb ⟨i, hxlt⟩
        (by rw [Fin.le_def]; exact hj)
      rw [hjb] at hends
      rw [show S.get ⟨i, hxlt⟩ = x by rw [List.get_eq_getElem]; exact hxe] at hends
      omega
    · have hstarts := sorted_starts_get hval hsort ⟨i + 1, hylt⟩ jb
        (by rw [Fin.le_def]; show i + 1 ≤ jb.1; omega)
      rw [hjb] at hstarts
      rw [show S.get ⟨i + 1, hylt⟩ = y by rw [List.get_eq_getElem]; exact hye] at hstarts
      omega
  · obtain ⟨z, hz, hlt, hdur, hseq⟩ := mem_eveningSlots_shape hev
    have e1 : s.start_time = z.end_time := by rw [hseq]
    have e2 : s.end_time = "22:00" := by rw [hseq]
    rw [List.getLast?_eq_getElem?] at hz
    obtain ⟨hzlt, hze⟩ := List.getElem?_eq_some_iff.mp hz
    have hends := chain_ends_get hval hse hsep jb ⟨S.length - 1, hzlt⟩
      (by rw [Fin.le_def]; show jb.1 ≤ S.length - 1; have := jb.isLt; omega)
    rw [hjb] at hends
    rw [show S.get ⟨S.length - 1, hzlt⟩ = z by rw [List.get_eq_getElem]; exact hze] at hends
    apply slotOverlapsBooking_eq_false
    rw [e1, e2, (by decide : time_to_minutes "22:00" = 1320)]
    omega

example : time_to_minutes "09:30" = 570 := by decide
example : time_to_minutes "9:30" = 570 := by decide
example : time_to_minutes "25:00" = 0 := by decide
example : time_to_minutes "ab:cd" = 0 := by decide
example : time_to_minutes "12:345" = 0 := by decide
example : strLt "09:00" "09:30" = true := by decide
example :
    analyze_free_time_slots [⟨0, 0, "09:30", "11:00"⟩] =
      [⟨"11:00", "22:00", 660, "Evening free time"⟩] := by decide

/-- C6: applying `analyze_free_time_slots` to the empty booking list returns
the empty slot sequence; as a total function of its input it signals no
error. -/
theorem analyze_empty_input : analyze_free_time_slots [] = [] := rfl

/-- C9: the analyzer is deterministic — it is a pure function of the booking
list (its internal sorts are the deterministic stable `insertionSort`), so two
runs on the same (possibly unsorted) input produce identical outputs. -/
theorem analyze_deterministic (l1 l2 : List Booking) (h : l1 = l2) :
    analyze_free_time_slots l1 = analyze_free_time_slots l2 := by rw [h]

theorem analyze_deterministic_witness :
    analyze_free_time_slots [⟨0, 0, "09:30", "11:00"⟩] =
      analyze_free_time_slots [⟨0, 0, "09:30", "11:00"⟩] :=
  analyze_deterministic [⟨0, 0, "09:30", "11:00"⟩] [⟨0, 0, "09:30", "11:00"⟩] rfl

/-- C5: for the single one-day booking `09:30`–`11:00` the analyzer emits no
"Morning free time" slot (the 30-minute morning gap is below the threshold)
and exactly one "Evening free time" slot `11:00`–`22:00` of 660 minutes. -/
theorem scenario_single_booking :
    analyze_free_time_slots [⟨0, 0, "09:30", "11:00"⟩] =
      [⟨"11:00", "22:00", 660, "Evening free time"⟩] ∧
    (analyze_free_time_slots [⟨0, 0, "09:30", "11:00"⟩]).filter
      (fun s => s.context == "Morning free time") = [] ∧
    (analyze_free_time_slots [⟨0, 0, "09:30", "11:00"⟩]).filter
      (fun s => s.context == "Evening free time") =
      [⟨"11:00", "22:00", 660, "Evening free time"⟩] := by decide

/-- C3: every slot emitted by `analyze_free_time_slots` has
`duration_minutes ≥ 60` and `duration_minutes` equal to the minute difference
between its end and start times. -/
theorem analyze_duration_invariant (bookings : List Booking) (s : FreeTimeSlot)
    (h : s ∈ analyze_free_time_slots bookings) :
    60 ≤ s.duration_minutes ∧
      s.duration_minutes = time_to_minutes s.end_time - time_to_minutes s.start_time := by
  obtain ⟨d, _, hd⟩ := mem_analyze h
  rcases mem_dayProcess hd with h0 | h1 | h2 | h3
  · subst h0; exact ⟨by decide, by decide⟩
  · exact (mem_morningSlots h1).2
  · exact (mem_gapSlots_basic h2).2
  · exact (mem_eveningSlots h3).2

theorem analyze_duration_invariant_witness :
    60 ≤ (FreeTimeSlot.mk "11:00" "22:00" 660 "Evening free time").duration_minutes ∧
      (FreeTimeSlot.mk "11:00" "22:00" 660 "Evening free time").duration_minutes =
        time_to_minutes (FreeTimeSlot.mk "11:00" "22:00" 660 "Evening free time").end_time -
          time_to_minutes (FreeTimeSlot.mk "11:00" "22:00" 660 "Evening free time").start_time :=
  analyze_duration_invariant [⟨0, 0, "09:30", "11:00"⟩]
    ⟨"11:00", "22:00", 660, "Evening free time"⟩ (by decide)

/-- C2: for a non-empty booking list the analyzer processes every calendar day
of the inclusive span from the minimum `start_date` to the maximum `end_date`
in order, and any such day with zero overlapping bookings contributes exactly
one slot: `09:00`–`18:00`, 540 minutes, context
`"Free day - no bookings scheduled"`. -/
theorem analyze_free_day_spec (bookings : List Booking) (hne : bookings ≠ []) :
    analyze_free_time_slots bookings = (tripDays bookings).flatMap (dayProcess bookings) ∧
    ∀ d ∈ tripDays bookings, dayBookings bookings d = [] →
      dayProcess bookings d =
        [⟨"09:00", "18:00", 540, "Free day - no bookings scheduled"⟩] := by
  cases bookings with
  | nil => exact absurd rfl hne
  | cons b rest =>
    refine ⟨rfl, fun d _ hempty => ?_⟩
    unfold dayProcess
    rw [hempty]
    rfl

theorem analyze_free_day_spec_witness :
    dayProcess [⟨0, 0, "10:00", "11:00"⟩, ⟨2, 2, "10:00", "11:00"⟩] 1 =
      [⟨"09:00", "18:00", 540, "Free day - no bookings scheduled"⟩] :=
  (analyze_free_day_spec [⟨0, 0, "10:00", "11:00"⟩, ⟨2, 2, "10:00", "11:00"⟩]
    (by decide)).2 1 (by decide) (by decide)

/-- C4: characterization of the "Gap between bookings" slots of the per-day
detector: with the day's bookings sorted by start time, a gap slot is emitted
for exactly the consecutive pairs `(x, y)` with `x.end_time < y.start_time`
(string comparison) and a minute difference of at least 60, and it runs from
`x.end_time` to `y.start_time` with that duration; no gap slot arises in any
other way. -/
theorem gap_slot_characterization (day_bookings : List Booking) (s : FreeTimeSlot) :
    (s ∈ find_daily_free_slots day_bookings ∧ s.context = "Gap between bookings") ↔
    ∃ i x y, (sortByStart day_bookings)[i]? = some x ∧
      (sortByStart day_bookings)[i + 1]? = some y ∧
      strLt x.end_time y.start_time = true ∧
      60 ≤ time_to_minutes y.start_time - time_to_minutes x.end_time ∧
      s = ⟨x.end_time, y.start_time,
        time_to_minutes y.start_time - time_to_minutes x.end_time, "Gap between bookings"⟩ := by
  rw [← mem_gapSlots_iff]
  constructor
  · rintro ⟨hmem, hctx⟩
    rcases mem_find_daily hmem with h | h | h
    · rw [(mem_morningSlots h).1] at hctx
      exact absurd hctx (by decide)
    · exact h
    · rw [(mem_eveningSlots h).1] at hctx
      exact absurd hctx (by decide)
  · intro h
    refine ⟨?_, (mem_gapSlots_basic h).1⟩
    unfold find_daily_free_slots
    rw [List.mem_append, List.mem_append]
    exact Or.inl (Or.inr h)

theorem mem_morningSlots_eq {L : List Booking} {s : FreeTimeSlot}
    (h : s ∈ morningSlots L) : morningSlots L = [s] := by
  cases L with
  | nil => simp [morningSlots] at h
  | cons fb t =>
    unfold morningSlots at h ⊢
    by_cases h1 : strLt "09:00" fb.start_time
    · by_cases h2 : 60 ≤ time_to_minutes fb.start_time - time_to_minutes "09:00"
      · simp [h1, h2] at h ⊢
        exact h.symm
      · simp [h1, h2] at h
    · simp [h1] at h

theorem mem_eveningSlots_eq {L : List Booking} {s : FreeTimeSlot}
    (h : s ∈ eveningSlots L) : eveningSlots L = [s] := by
  unfold eveningSlots at h ⊢
  split at h
  · simp at h
  · rename_i lb heq
    by_cases h1 : strLt lb.end_time "22:00"
    · by_cases h2 : 60 ≤ time_to_minutes "22:00" - time_to_minutes lb.end_time
      · simp [h1, h2] at h ⊢
        exact h.symm
      · simp [h1, h2] at h
    · simp [h1] at h

theorem morningSlots_length (L : List Booking) : (morningSlots L).length ≤ 1 := by
  cases L with
  | nil => simp [morningSlots]
  | cons fb t =>
    unfold morningSlots
    by_cases h1 : strLt "09:00" fb.start_time
    · by_cases h2 : 60 ≤ time_to_minutes fb.start_time - time_to_minutes "09:00"
      · simp [h1, h2]
      · simp [h1, h2]
    · simp [h1]

theorem eveningSlots_length (L : List Booking) : (eveningSlots L).length ≤ 1 := by
  unfold eveningSlots
  split
  · simp
  · rename_i lb heq
    by_cases h1 : strLt lb.end_time "22:00"
    · by_cases h2 : 60 ≤ time_to_minutes "22:00" - time_to_minutes lb.end_time
      · simp [h1, h2]
      · simp [h1, h2]
    · simp [h1]

theorem gapSlots_length : ∀ L : List Booking, L ≠ [] → (gapSlots L).length + 1 ≤ L.length
  | [], h => absurd rfl h
  | [a], _ => by simp [gapSlots]
  | a :: b :: t, _ => by
    have ih := gapSlots_length (b :: t) (by simp)
    unfold gapSlots
    rw [List.length_append]
    simp only [List.length_cons] at ih
    by_cases hc : strLt a.end_time b.start_time
    · by_cases hd : 60 ≤ time_to_minutes b.start_time - time_to_minutes a.end_time
      · rw [if_pos hc, if_pos hd]
        simp only [List.length_cons, List.length_nil]
        omega
      · rw [if_pos hc, if_neg hd]
        simp only [List.length_nil, List.length_cons]
        omega
    · rw [if_neg hc]
      simp only [List.length_nil, List.length_cons]
      omega

/-- C10: on a day with `n ≥ 1` bookings the per-day detector emits at most
`n + 1` slots, among them at most one "Morning free time" slot (first when
present) and at most one "Evening free time" slot (last when present). -/
theorem find_daily_shape (day_bookings : List Booking) (hne : day_bookings ≠ []) :
    (find_daily_free_slots day_bookings).length ≤ day_bookings.length + 1 ∧
    ((find_daily_free_slots day_bookings).filter
      (fun s => s.context == "Morning free time")).length ≤ 1 ∧
    ((find_daily_free_slots day_bookings).filter
      (fun s => s.context == "Evening free time")).length ≤ 1 ∧
    (∀ s ∈ find_daily_free_slots day_bookings, s.context = "Morning free time" →
      (find_daily_free_slots day_bookings).head? = some s) ∧
    (∀ s ∈ find_daily_free_slots day_bookings, s.context = "Evening free time" →
      (find_daily_free_slots day_bookings).getLast? = some s) := by
  have hlen : (sortByStart day_bookings).length = day_bookings.length := by
    unfold sortByStart
    apply List.length_insertionSort
  have hSne : sortByStart day_bookings ≠ [] := by
    intro hcon
    apply hne
    rw [← List.length_eq_zero, ← hlen, hcon]
    rfl
  refine ⟨?_, ?_, ?_, ?_, ?_⟩
  · unfold find_daily_free_slots
    have h1 := morningSlots_length (sortByStart day_bookings)
    have h2 := gapSlots_length (sortByStart day_bookings) hSne
    have h3 := eveningSlots_length (sortByStart day_bookings)
    rw [List.length_append, List.length_append]
    omega
  · unfold find_daily_free_slots
    rw [List.filter_append, List.filter_append]
    have hg : (gapSlots (sortByStart day_bookings)).filter
        (fun s => s.context == "Morning free time") = [] := by
      rw [List.filter_eq_nil_iff]
      intro a ha
      rw [(mem_gapSlots_basic ha).1]
      decide
    have he : (eveningSlots (sortByStart day_bookings)).filter
        (fun s => s.context == "Morning free time") = [] := by
      rw [List.filter_eq_nil_iff]
      intro a ha
      rw [(mem_eveningSlots ha).1]
      decide
    rw [hg, he]
    have := List.length_filter_le (fun s : FreeTimeSlot => s.context == "Morning free time")
      (morningSlots (sortByStart day_bookings))
    have := morningSlots_length (sortByStart day_bookings)
    simp only [List.append_nil]
    omega
  · unfold find_daily_free_slots
    rw [List.filter_append, List.filter_append]
    have hm : (morningSlots (sortByStart day_bookings)).filter
        (fun s => s.context == "Evening free time") = [] := by
      rw [List.filter_eq_nil_iff]
      intro a ha
      rw [(mem_morningSlots ha).1]
      decide
    have hg : (gapSlots (sortByStart day_bookings)).filter
        (fun s => s.context == "Evening free time") = [] := by
      rw [List.filter_eq_nil_iff]
      intro a ha
      rw [(mem_gapSlots_basic ha).1]
      decide
    rw [hm, hg]
    have := List.length_filter_le (fun s : FreeTimeSlot => s.context == "Evening free time")
      (eveningSlots (sortByStart day_bookings))
    have := eveningSlots_length (sortByStart day_bookings)
    simp only [List.nil_append]
    omega
  · intro s hs hctx
    have hsm : s ∈ morningSlots (sortByStart day_bookings) := by
      rcases mem_find_daily hs with h | h | h
      · exact h
      · rw [(mem_gapSlots_basic h).1] at hctx; exact absurd hctx (by decide)
      · rw [(mem_eveningSlots h).1] at hctx; exact absurd hctx (by decide)
    unfold find_daily_free_slots
    rw [mem_morningSlots_eq hsm]
    rfl
  · intro s hs hctx
    have hse : s ∈ eveningSlots (sortByStart day_bookings) := by
      rcases mem_find_daily hs with h | h | h
      · rw [(mem_morningSlots h).1] at hctx; exact absurd hctx (by decide)
      · rw [(mem_gapSlots_basic h).1] at hctx; exact absurd hctx (by decide)
      · exact h
    unfold find_daily_free_slots
    rw [mem_eveningSlots_eq hse]
    exact List.getLast?_concat _

theorem find_daily_shape_witness :
    (find_daily_free_slots [⟨0, 0, "10:00", "11:00"⟩, ⟨0, 0, "15:00", "16:00"⟩]).length ≤
      (([⟨0, 0, "10:00", "11:00"⟩, ⟨0, 0, "15:00", "16:00"⟩] : List Booking)).length + 1 ∧
    (find_daily_free_slots [⟨0, 0, "10:00", "11:00"⟩, ⟨0, 0, "15:00", "16:00"⟩]).head? =
      some ⟨"09:00", "10:00", 60, "Morning free time"⟩ ∧
    (find_daily_free_slots [⟨0, 0, "10:00", "11:00"⟩, ⟨0, 0, "15:00", "16:00"⟩]).getLast? =
      some ⟨"16:00", "22:00", 360, "Evening free time"⟩ :=
  ⟨(find_daily_shape [⟨0, 0, "10:00", "11:00"⟩, ⟨0, 0, "15:00", "16:00"⟩] (by decide)).1,
    (find_daily_shape [⟨0, 0, "10:00", "11:00"⟩, ⟨0, 0, "15:00", "16:00"⟩] (by decide)).2.2.2.1
      ⟨"09:00", "10:00", 60, "Morning free time"⟩ (by decide) rfl,
    (find_daily_shape [⟨0, 0, "10:00", "11:00"⟩, ⟨0, 0, "15:00", "16:00"⟩] (by decide)).2.2.2.2
      ⟨"16:00", "22:00", 360, "Evening free time"⟩ (by decide) rfl⟩

theorem digitsVal_one (c : Char) : digitsVal [c] = dval c := by
  simp [digitsVal]

theorem digitsVal_two (c1 c2 : Char) : digitsVal [c1, c2] = 10 * dval c1 + dval c2 := by
  simp [digitsVal]

theorem isDig_bounds {c : Char} (h : isDig c = true) : 0 ≤ dval c ∧ dval c ≤ 9 := by
  unfold isDig at h
  rw [Bool.and_eq_true, decide_eq_true_iff, decide_eq_true_iff] at h
  unfold dval
  omega

theorem validHourStr_cases : ∀ {hs : List Char}, validHourStr hs = true →
    (∃ c, hs = [c] ∧ isDig c = true) ∨
    (∃ c1 c2, hs = [c1, c2] ∧ isDig c1 = true ∧ isDig c2 = true ∧
      10 * dval c1 + dval c2 ≤ 23)
  | [c], h => Or.inl ⟨c, rfl, h⟩
  | [c1, c2], h => by
    simp only [validHourStr, Bool.and_eq_true, decide_eq_true_iff] at h
    exact Or.inr ⟨c1, c2, rfl, h.1.1, h.1.2, h.2⟩
  | [], h => by simp [validHourStr] at h
  | _ :: _ :: _ :: _, h => by simp [validHourStr] at h

theorem validMinuteStr_cases : ∀ {ms : List Char}, validMinuteStr ms = true →
    (∃ c, ms = [c] ∧ isDig c = true) ∨
    (∃ c1 c2, ms = [c1, c2] ∧ isDig c1 = true ∧ isDig c2 = true ∧
      10 * dval c1 + dval c2 ≤ 59)
  | [c], h => Or.inl ⟨c, rfl, h⟩
  | [c1, c2], h => by
    simp only [validMinuteStr, Bool.and_eq_true, decide_eq_true_iff] at h
    exact Or.inr ⟨c1, c2, rfl, h.1.1, h.1.2, h.2⟩
  | [], h => by simp [validMinuteStr] at h
  | _ :: _ :: _ :: _, h => by simp [validMinuteStr] at h

theorem decomp_length {cs hs ms : List Char} (hdec : cs = hs ++ ':' :: ms)
    (hh : validHourStr hs = true) (hm : validMinuteStr ms = true) :
    cs.length = 3 ∨ cs.length = 4 ∨ cs.length = 5 := by
  rcases validHourStr_cases hh with ⟨x, rfl, -⟩ | ⟨x1, x2, rfl, -, -, -⟩ <;>
    rcases validMinuteStr_cases hm with ⟨y, rfl, -⟩ | ⟨y1, y2, rfl, -, -, -⟩ <;>
      subst hdec <;> simp

theorem decomp3 {a b c : Char} {hs ms : List Char}
    (hdec : [a, b, c] = hs ++ ':' :: ms) (hh : validHourStr hs = true)
    (hm : validMinuteStr ms = true) : hs = [a] ∧ b = ':' ∧ ms = [c] := by
  rcases validHourStr_cases hh with ⟨x, rfl, -⟩ | ⟨x1, x2, rfl, -, -, -⟩ <;>
    rcases validMinuteStr_cases hm with ⟨y, rfl, -⟩ | ⟨y1, y2, rfl, -, -, -⟩ <;>
      simp_all

theorem decomp4 {a b c d : Char} {hs ms : List Char}
    (hdec : [a, b, c, d] = hs ++ ':' :: ms) (hh : validHourStr hs = true)
    (hm : validMinuteStr ms = true) :
    (hs = [a, b] ∧ c = ':' ∧ ms = [d]) ∨ (hs = [a] ∧ b = ':' ∧ ms = [c, d]) := by
  rcases validHourStr_cases hh with ⟨x, rfl, -⟩ | ⟨x1, x2, rfl, -, -, -⟩ <;>
    rcases validMinuteStr_cases hm with ⟨y, rfl, -⟩ | ⟨y1, y2, rfl, -, -, -⟩ <;>
      simp_all

theorem decomp5 {a b c d e : Char} {hs ms : List Char}
    (hdec : [a, b, c, d, e] = hs ++ ':' :: ms) (hh : validHourStr hs = true)
    (hm : validMinuteStr ms = true) : hs = [a, b] ∧ c = ':' ∧ ms = [d, e] := by
  rcases validHourStr_cases hh with ⟨x, rfl, -⟩ | ⟨x1, x2, rfl, -, -, -⟩ <;>
    rcases validMinuteStr_cases hm with ⟨y, rfl, -⟩ | ⟨y1, y2, rfl, -, -, -⟩ <;>
      simp_all

theorem parseHM_spec : ∀ cs : List Char,
    (∃ hs ms, cs = hs ++ ':' :: ms ∧ validHourStr hs = true ∧ validMinuteStr ms = true ∧
      parseHM cs = some (digitsVal hs, digitsVal ms)) ∨
    ((¬ ∃ hs ms, cs = hs ++ ':' :: ms ∧ validHourStr hs = true ∧ validMinuteStr ms = true) ∧
      parseHM cs = none)
  | [] => by
    right
    refine ⟨?_, rfl⟩
    rintro ⟨hs, ms, hdec, hh, hm⟩
    have := decomp_length hdec hh hm
    simp at this
  | [a] => by
    right
    refine ⟨?_, rfl⟩
    rintro ⟨hs, ms, hdec, hh, hm⟩
    have := decomp_length hdec hh hm
    simp at this
  | [a, b] => by
    right
    refine ⟨?_, rfl⟩
    rintro ⟨hs, ms, hdec, hh, hm⟩
    have := decomp_length hdec hh hm
    simp at this
  | [a, b, c] => by
    by_cases hP : b = ':' ∧ isDig a = true ∧ isDig c = true
    · left
      obtain ⟨rfl, ha, hc⟩ := hP
      refine ⟨[a], [c], rfl, by simpa [validHourStr] using ha,
        by simpa [validMinuteStr] using hc, ?_⟩
      rw [digitsVal_one, digitsVal_one]
      simp [parseHM, ha, hc]
    · right
      constructor
      · rintro ⟨hs, ms, hdec, hh, hm⟩
        obtain ⟨rfl, rfl, rfl⟩ := decomp3 hdec hh hm
        exact hP ⟨rfl, by simpa [validHourStr] using hh, by simpa [validMinuteStr] using hm⟩
      · simp only [parseHM]
        rw [if_neg]
        intro hcond
        rw [Bool.and_eq_true, Bool.and_eq_true, decide_eq_true_iff] at hcond
        exact hP ⟨hcond.1.1, hcond.1.2, hcond.2⟩
  | [a, b, c, d] => by
    by_cases h1 : c = ':' ∧ isDig a = true ∧ isDig b = true ∧ isDig d = true ∧
        10 * dval a + dval b ≤ 23
    · left
      obtain ⟨rfl, ha, hb, hd, hle⟩ := h1
      refine ⟨[a, b], [d], rfl, by simp [validHourStr, ha, hb, hle],
        by simpa [validMinuteStr] using hd, ?_⟩
      rw [digitsVal_two, digitsVal_one]
      simp [parseHM, ha, hb, hd, hle]
    · by_cases h2 : b = ':' ∧ isDig a = true ∧ isDig c = true ∧ isDig d = true ∧ dval c ≤ 5
      · left
        obtain ⟨rfl, ha, hc, hd, hle⟩ := h2
        have hd9 := isDig_bounds hd
        refine ⟨[a], [c, d], rfl, by simpa [validHourStr] using ha,
          by simp [validMinuteStr, hc, hd]; omega, ?_⟩
        rw [digitsVal_one, digitsVal_two]
        have hn1 : ¬(c = ':' ∧ isDig a = true ∧ isDig ':' = true ∧ isDig d = true ∧
            10 * dval a + dval ':' ≤ 23) := by
          rintro ⟨-, -, hbad, -, -⟩
          simp [isDig] at hbad
        simp only [parseHM]
        rw [if_neg, if_pos]
        · simp [ha, hc, hd, hle]
        · intro hcond
          rw [Bool.and_eq_true, Bool.and_eq_true, Bool.and_eq_true, Bool.and_eq_true,
            decide_eq_true_iff, decide_eq_true_iff] at hcond
          exact hn1 ⟨hcond.1.1.1.1, hcond.1.1.1.2, hcond.1.1.2, hcond.1.2, hcond.2⟩
      · right
        constructor
        · rintro ⟨hs, ms, hdec, hh, hm⟩
          rcases decomp4 hdec hh hm with ⟨rfl, rfl, rfl⟩ | ⟨rfl, rfl, rfl⟩
          · simp only [validHourStr, Bool.and_eq_true, decide_eq_true_iff] at hh
            refine h1 ⟨rfl, hh.1.1, hh.1.2, by simpa [validMinuteStr] using hm, hh.2⟩
          · simp only [validMinuteStr, Bool.and_eq_true, decide_eq_true_iff] at hm
            have := isDig_bounds hm.1.2
            refine h2 ⟨rfl, by simpa [validHourStr] using hh, hm.1.1, hm.1.2, by omega⟩
        · simp only [parseHM]
          rw [if_neg, if_neg]
          · intro hcond
            rw [Bool.and_eq_true, Bool.and_eq_true, Bool.and_eq_true, Bool.and_eq_true,
              decide_eq_true_iff, decide_eq_true_iff] at hcond
            exact h2 ⟨hcond.1.1.1.1, hcond.1.1.1.2, hcond.1.1.2, hcond.1.2, hcond.2⟩
          · intro hcond
            rw [Bool.and_eq_true, Bool.and_eq_true, Bool.and_eq_true, Bool.and_eq_true,
              decide_eq_true_iff, decide_eq_true_iff] at hcond
            exact h1 ⟨hcond.1.1.1.1, hcond.1.1.1.2, hcond.1.1.2, hcond.1.2, hcond.2⟩
  | [a, b, c, d, e] => by
    by_cases hP : c = ':' ∧ isDig a = true ∧ isDig b = true ∧ 10 * dval a + dval b ≤ 23 ∧
        isDig d = true ∧ isDig e = true ∧ dval d ≤ 5
    · left
      obtain ⟨rfl, ha, hb, hab, hd, he, hd5⟩ := hP
      have he9 := isDig_bounds he
      refine ⟨[a, b], [d, e], rfl, by simp [validHourStr, ha, hb, hab],
        by simp [validMinuteStr, hd, he]; omega, ?_⟩
      rw [digitsVal_two, digitsVal_two]
      simp [parseHM, ha, hb, hab, hd, he, hd5]
    · right
      constructor
      · rintro ⟨hs, ms, hdec, hh, hm⟩
        obtain ⟨rfl, rfl, rfl⟩ := decomp5 hdec hh hm
        simp only [validHourStr, Bool.and_eq_true, decide_eq_true_iff] at hh
        simp only [validMinuteStr, Bool.and_eq_true, decide_eq_true_iff] at hm
        have := isDig_bounds hm.1.2
        exact hP ⟨rfl, hh.1.1, hh.1.2, hh.2, hm.1.1, hm.1.2, by omega⟩
      · simp only [parseHM]
        rw [if_neg]
        intro hcond
        rw [Bool.and_eq_true, Bool.and_eq_true, Bool.and_eq_true, Bool.and_eq_true,
          Bool.and_eq_true, Bool.and_eq_true, decide_eq_true_iff, decide_eq_true_iff,
          decide_eq_true_iff] at hcond
        exact hP ⟨hcond.1.1.1.1.1.1, hcond.1.1.1.1.1.2, hcond.1.1.1.1.2, hcond.1.1.1.2,
          hcond.1.1.2, hcond.1.2, hcond.2⟩
  | a :: b :: c :: d :: e :: f :: t => by
    right
    refine ⟨?_, rfl⟩
    rintro ⟨hs, ms, hdec, hh, hm⟩
    have := decomp_length hdec hh hm
    simp only [List.length_cons] at this
    omega

/-- C7 counterexample: the non-zero-padded string `"9:30"` does not have the
zero-padded `HH:MM` form, yet `time_to_minutes` returns 570 rather than the
0 the claim requires (CPython `strptime("%H:%M")` accepts one-digit hours). -/
theorem time_to_minutes_not_padded_cex :
    validHM "9:30" = false ∧ time_to_minutes "9:30" = 570 ∧ (570 : Int) ≠ 0 := by decide

/-- C7 (amended): `time_to_minutes` is a total function on strings; whenever
the input decomposes as `H:M` with `H` a one- or two-digit hour of value ≤ 23
and `M` a one- or two-digit minute of value ≤ 59 (zero padding not required)
the result is `hour * 60 + minute`, and on every other string the result
is 0. -/
theorem time_to_minutes_spec (s : String) :
    (∃ hs ms, s.data = hs ++ ':' :: ms ∧ validHourStr hs = true ∧ validMinuteStr ms = true ∧
      time_to_minutes s = digitsVal hs * 60 + digitsVal ms) ∨
    ((¬ ∃ hs ms, s.data = hs ++ ':' :: ms ∧ validHourStr hs = true ∧
        validMinuteStr ms = true) ∧
      time_to_minutes s = 0) := by
  rcases parseHM_spec s.data with ⟨hs, ms, hdec, hh, hm, hval⟩ | ⟨hneg, hnone⟩
  · left
    refine ⟨hs, ms, hdec, hh, hm, ?_⟩
    unfold time_to_minutes
    rw [hval]
  · right
    refine ⟨hneg, ?_⟩
    unfold time_to_minutes
    rw [hnone]

/-- C1 counterexample: with two overlapping bookings on one day
(`10:00`–`21:30` and the nested `12:00`–`13:00`) the analyzer emits an
"Evening free time" slot `13:00`–`22:00` that overlaps the still-running
`10:00`–`21:30` booking inside the `09:00`–`22:00` window. -/
theorem analyze_overlap_cex :
    (⟨"13:00", "22:00", 540, "Evening free time"⟩ : FreeTimeSlot) ∈
      analyze_free_time_slots [⟨0, 0, "10:00", "21:30"⟩, ⟨0, 0, "12:00", "13:00"⟩] ∧
    (0 : Int) ∈ tripDays [⟨0, 0, "10:00", "21:30"⟩, ⟨0, 0, "12:00", "13:00"⟩] ∧
    (⟨0, 0, "10:00", "21:30"⟩ : Booking) ∈
      dayBookings [⟨0, 0, "10:00", "21:30"⟩, ⟨0, 0, "12:00", "13:00"⟩] 0 ∧
    (⟨"13:00", "22:00", 540, "Evening free time"⟩ : FreeTimeSlot) ∈
      dayProcess [⟨0, 0, "10:00", "21:30"⟩, ⟨0, 0, "12:00", "13:00"⟩] 0 ∧
    slotOverlapsBooking ⟨"13:00", "22:00", 540, "Evening free time"⟩
      ⟨0, 0, "10:00", "21:30"⟩ = true := by decide

/-- C1 (amended): if every booking has well-formed zero-padded `HH:MM` times
with `start_time ≤ end_time`, and on every day of the trip the bookings
active that day, sorted by start time, are pairwise separated (each one ends
no later than the next starts), then no emitted free slot — restricted to the
`09:00`–`22:00` day window — overlaps the `[start_time, end_time]` interval
of any booking active on that slot's day.  (The unamended claim fails for
overlapping bookings, see the counterexample.) -/
theorem analyze_no_overlap (bookings : List Booking) (hne : bookings ≠ [])
    (hval : ∀ b ∈ bookings, validHM b.start_time = true ∧ validHM b.end_time = true)
    (hse : ∀ b ∈ bookings, strLt b.end_time b.start_time = false)
    (hsep : ∀ d ∈ tripDays bookings,
      (sortByStart (dayBookings bookings d)).Chain'
        (fun x y => strLt y.start_time x.end_time = false)) :
    analyze_free_time_slots bookings = (tripDays bookings).flatMap (dayProcess bookings) ∧
    ∀ d ∈ tripDays bookings, ∀ s ∈ dayProcess bookings d, ∀ b ∈ dayBookings bookings d,
      slotOverlapsBooking s b = false := by
  constructor
  · cases bookings with
    | nil => exact absurd rfl hne
    | cons x rest => rfl
  · intro d hd s hs b hb
    have hvalS : ∀ c ∈ sortByStart (dayBookings bookings d),
        validHM c.start_time = true ∧ validHM c.end_time = true := by
      intro c hc
      exact hval c (mem_dayBookings (mem_sortByStart.mp hc))
    have hseS : ∀ c ∈ sortByStart (dayBookings bookings d),
        strLt c.end_time c.start_time = false := by
      intro c hc
      exact hse c (mem_dayBookings (mem_sortByStart.mp hc))
    have hsortS := sortByStart_sorted (dayBookings bookings d)
    have hsepS := hsep d hd
    have hbS : b ∈ sortByStart (dayBookings bookings d) := mem_sortByStart.mpr hb
    unfold dayProcess at hs
    split at hs
    · rename_i hemp
      rw [List.isEmpty_iff] at hemp
      rw [hemp] at hb
      simp at hb
    · unfold find_daily_free_slots at hs
      exact daySlots_no_overlap hvalS hseS hsortS hsepS s hs b hbS

theorem analyze_no_overlap_witness :
    slotOverlapsBooking ⟨"09:00", "10:00", 60, "Morning free time"⟩
      ⟨0, 0, "10:00", "11:00"⟩ = false :=
  (analyze_no_overlap [⟨0, 0, "10:00", "11:00"⟩, ⟨0, 0, "15:00", "16:00"⟩] (by decide)
    (by decide) (by decide)
    (by
      intro d hd
      have htrip : tripDays [⟨0, 0, "10:00", "11:00"⟩, ⟨0, 0, "15:00", "16:00"⟩] =
          [0] := by decide
      rw [htrip] at hd
      have hd0 : d = 0 := by simpa using hd
      subst hd0
      have hS : sortByStart (dayBookings
          [⟨0, 0, "10:00", "11:00"⟩, ⟨0, 0, "15:00", "16:00"⟩] 0) =
          [⟨0, 0, "10:00", "11:00"⟩, ⟨0, 0, "15:00", "16:00"⟩] := by decide
      rw [hS]
      exact List.chain'_pair.mpr (by decide))).2 0 (by decide)
    ⟨"09:00", "10:00", 60, "Morning free time"⟩ (by decide)
    ⟨0, 0, "10:00", "11:00"⟩ (by decide)

theorem gapSlots_start_lb {S : List Booking}
    (hval : ∀ b ∈ S, validHM b.start_time = true ∧ validHM b.end_time = true)
    (hse : ∀ b ∈ S, strLt b.end_time b.start_time = false)
    (hsort : S.Pairwise (fun x y => timeLe x y = true))
    {y : FreeTimeSlot} (hy : y ∈ gapSlots S) (h0 : 0 < S.length) :
    time_to_minutes (S.get ⟨0, h0⟩).start_time ≤ time_to_minutes y.start_time := by
  rw [mem_gapSlots_iff] at hy
  obtain ⟨i, x, yb, hx, hyb, hlt, hdur, hseq⟩ := hy
  obtain ⟨hxlt, hxe⟩ := List.getElem?_eq_some_iff.mp hx
  have e1 : y.start_time = x.end_time := by rw [hseq]
  rw [e1]
  have hget : S.get ⟨i, hxlt⟩ = x := by rw [List.get_eq_getElem]; exact hxe
  have h1 := sorted_starts_get hval hsort ⟨0, h0⟩ ⟨i, hxlt⟩
    (by rw [Fin.le_def]; exact Nat.zero_le _)
  have h2 := startle_of_facts hval hse x (by rw [← hget]; exact List.get_mem S i hxlt)
  rw [hget] at h1
  omega

theorem gapSlots_end_ub {S : List Booking}
    (hval : ∀ b ∈ S, validHM b.start_time = true ∧ validHM b.end_time = true)
    (hse : ∀ b ∈ S, strLt b.end_time b.start_time = false)
    (hsort : S.Pairwise (fun x y => timeLe x y = true))
    {y : FreeTimeSlot} (hy : y ∈ gapSlots S) (hlast : S.length - 1 < S.length) :
    time_to_minutes y.end_time ≤
      time_to_minutes (S.get ⟨S.length - 1, hlast⟩).end_time := by
  rw [mem_gapSlots_iff] at hy
  obtain ⟨i, x, yb, hx, hyb, hlt, hdur, hseq⟩ := hy
  obtain ⟨hylt, hye⟩ := List.getElem?_eq_some_iff.mp hyb
  have e1 : y.end_time = yb.start_time := by rw [hseq]
  rw [e1]
  have hget : S.get ⟨i + 1, hylt⟩ = yb := by rw [List.get_eq_getElem]; exact hye
  have h1 := sorted_starts_get hval hsort ⟨i + 1, hylt⟩ ⟨S.length - 1, hlast⟩
    (by rw [Fin.le_def]; show i + 1 ≤ S.length - 1; omega)
  have h2 := startle_of_facts hval hse _ (List.get_mem S (S.length - 1) hlast)
  rw [hget] at h1
  omega

theorem gapSlots_chain' : ∀ {S : List Booking},
    (∀ b ∈ S, validHM b.start_time = true ∧ validHM b.end_time = true) →
    (∀ b ∈ S, strLt b.end_time b.start_time = false) →
    S.Pairwise (fun x y => timeLe x y = true) →
    List.Chain' (fun s t => time_to_minutes s.end_time ≤ time_to_minutes t.start_time)
      (gapSlots S)
  | [] => by intro _ _ _; exact List.chain'_nil
  | [a] => by intro _ _ _; exact List.chain'_nil
  | a :: b :: t => by
    intro hval hse hsort
    have hval' : ∀ c ∈ b :: t, validHM c.start_time = true ∧ validHM c.end_time = true :=
      fun c hc => hval c (List.mem_cons_of_mem a hc)
    have hse' : ∀ c ∈ b :: t, strLt c.end_time c.start_time = false :=
      fun c hc => hse c (List.mem_cons_of_mem a hc)
    have hsort' := hsort.of_cons
    have ih := gapSlots_chain' hval' hse' hsort'
    unfold gapSlots
    rw [List.chain'_append]
    refine ⟨?_, ih, ?_⟩
    · split_ifs
      · exact List.chain'_singleton _
      · exact List.chain'_nil
      · exact List.chain'_nil
    · intro x hx y hy
      have hy2 : y ∈ gapSlots (b :: t) := List.mem_of_mem_head? hy
      have hlb := gapSlots_start_lb hval' hse' hsort' hy2 (by simp)
      split_ifs at hx with h1 h2
      · simp at hx
        subst hx
        exact hlb
      · simp at hx
      · simp at hx

theorem daySlots_chain {S : List Booking}
    (hval : ∀ b ∈ S, validHM b.start_time = true ∧ validHM b.end_time = true)
    (hse : ∀ b ∈ S, strLt b.end_time b.start_time = false)
    (hsort : S.Pairwise (fun x y => timeLe x y = true)) :
    List.Chain' (fun s t => time_to_minutes s.end_time ≤ time_to_minutes t.start_time)
      (morningSlots S ++ gapSlots S ++ eveningSlots S) := by
  rw [List.chain'_append, List.chain'_append]
  refine ⟨⟨?_, gapSlots_chain' hval hse hsort, ?_⟩, ?_, ?_⟩
  · cases hM : morningSlots S with
    | nil => exact List.chain'_nil
    | cons s l =>
      have hl0 : l = [] := by
        have hl := morningSlots_length S
        rw [hM] at hl
        simp only [List.length_cons] at hl
        exact List.length_eq_zero.mp (by omega)
      subst hl0
      exact List.chain'_singleton _
  · intro x hx y hy
    have hx2 : x ∈ morningSlots S := List.mem_of_mem_getLast? hx
    have hy2 : y ∈ gapSlots S := List.mem_of_mem_head? hy
    obtain ⟨fb, tl, hS, hgt, hdur, hxeq⟩ := mem_morningSlots_shape hx2
    have h0 : 0 < S.length := by rw [hS]; simp
    have hlb := gapSlots_start_lb hval hse hsort hy2 h0
    have e : x.end_time = fb.start_time := by rw [hxeq]
    rw [e]
    have hget : S.get ⟨0, h0⟩ = fb := by
      subst hS
      rfl
    rw [hget] at hlb
    exact hlb
  · cases hE : eveningSlots S with
    | nil => exact List.chain'_nil
    | cons s l =>
      have hl0 : l = [] := by
        have hl := eveningSlots_length S
        rw [hE] at hl
        simp only [List.length_cons] at hl
        exact List.length_eq_zero.mp (by omega)
      subst hl0
      exact List.chain'_singleton _
  · intro x hx z hz
    have hz2 : z ∈ eveningSlots S := List.mem_of_mem_head? hz
    obtain ⟨zb, hzb, hzlt2, hzdur, hzeq⟩ := mem_eveningSlots_shape hz2
    have ez : z.start_time = zb.end_time := by rw [hzeq]
    rw [ez]
    rw [List.getLast?_eq_getElem?] at hzb
    obtain ⟨hzl, hzge⟩ := List.getElem?_eq_some_iff.mp hzb
    have h0 : 0 < S.length := by omega
    have hgetz : S.get ⟨S.length - 1, hzl⟩ = zb := by
      rw [List.get_eq_getElem]
      exact hzge
    rw [List.getLast?_append] at hx
    cases hg : (gapSlots S).getLast? with
    | some xg =>
      rw [hg] at hx
      simp at hx
      subst hx
      have hxg : xg ∈ gapSlots S :=
        List.mem_of_mem_getLast? (by rw [hg]; rfl)
      have hub := gapSlots_end_ub hval hse hsort hxg hzl
      rw [hgetz] at hub
      exact hub
    | none =>
      rw [hg] at hx
      simp at hx
      have hx2 : x ∈ morningSlots S := List.mem_of_mem_getLast? hx
      obtain ⟨fb, tl, hS, hgt2, hdur2, hxeq⟩ := mem_morningSlots_shape hx2
      have e : x.end_time = fb.start_time := by rw [hxeq]
      rw [e]
      have hget0 : S.get ⟨0, h0⟩ = fb := by
        subst hS
        rfl
      have h1 := sorted_starts_get hval hsort ⟨0, h0⟩ ⟨S.length - 1, hzl⟩
        (by rw [Fin.le_def]; exact Nat.zero_le _)
      have h2 := startle_of_facts hval hse zb (by rw [← hgetz]; exact List.get_mem S _ hzl)
      rw [hget0, hgetz] at h1
      omega

theorem dayList_pairwise (a b : Int) : List.Pairwise (· < ·) (dayList a b) := by
  unfold dayList
  exact List.Pairwise.map (fun i : Nat => a + (i : Int))
    (fun x y h => Int.add_lt_add_left (Int.ofNat_lt.mpr h) a)
    (List.pairwise_lt_range _)

/-- C8 counterexample: with an inverted booking (`12:00`–`11:00`, end before
start) between two normal ones on a single day, the analyzer's output is not
chronologically ordered: the second emitted slot starts at `11:00`, before the
first slot's end `12:00`. -/
theorem analyze_ordering_cex :
    tripDays [⟨0, 0, "09:00", "10:00"⟩, ⟨0, 0, "12:00", "11:00"⟩,
      ⟨0, 0, "13:00", "14:00"⟩] = [0] ∧
    analyze_free_time_slots [⟨0, 0, "09:00", "10:00"⟩, ⟨0, 0, "12:00", "11:00"⟩,
      ⟨0, 0, "13:00", "14:00"⟩] =
      [⟨"10:00", "12:00", 120, "Gap between bookings"⟩,
       ⟨"11:00", "13:00", 120, "Gap between bookings"⟩,
       ⟨"14:00", "22:00", 480, "Evening free time"⟩] ∧
    ¬ List.Chain' (fun s t => time_to_minutes s.end_time ≤ time_to_minutes t.start_time)
      (analyze_free_time_slots [⟨0, 0, "09:00", "10:00"⟩, ⟨0, 0, "12:00", "11:00"⟩,
        ⟨0, 0, "13:00", "14:00"⟩]) := by
  refine ⟨by decide, by decide, ?_⟩
  intro h
  rw [(by decide : analyze_free_time_slots [⟨0, 0, "09:00", "10:00"⟩,
      ⟨0, 0, "12:00", "11:00"⟩, ⟨0, 0, "13:00", "14:00"⟩] =
      [⟨"10:00", "12:00", 120, "Gap between bookings"⟩,
       ⟨"11:00", "13:00", 120, "Gap between bookings"⟩,
       ⟨"14:00", "22:00", 480, "Evening free time"⟩]),
    List.chain'_cons] at h
  exact absurd h.1 (by decide)

/-- C8 (amended): for a non-empty booking list whose bookings all have
well-formed zero-padded `HH:MM` times with `start_time ≤ end_time`, the output
is the concatenation of per-day slot lists over the strictly increasing trip
days, and within each day the slots are chronological: each slot starts
strictly before it ends and no later slot starts before an earlier one ends.
(The unamended claim fails when a booking's `end_time` precedes its
`start_time`, see the counterexample.) -/
theorem analyze_ordering (bookings : List Booking) (hne : bookings ≠ [])
    (hval : ∀ b ∈ bookings, validHM b.start_time = true ∧ validHM b.end_time = true)
    (hse : ∀ b ∈ bookings, strLt b.end_time b.start_time = false) :
    analyze_free_time_slots bookings = (tripDays bookings).flatMap (dayProcess bookings) ∧
    List.Pairwise (· < ·) (tripDays bookings) ∧
    ∀ d ∈ tripDays bookings,
      List.Chain' (fun s t => time_to_minutes s.end_time ≤ time_to_minutes t.start_time)
        (dayProcess bookings d) ∧
      ∀ s ∈ dayProcess bookings d,
        time_to_minutes s.start_time < time_to_minutes s.end_time := by
  refine ⟨?_, ?_, ?_⟩
  · cases bookings with
    | nil => exact absurd rfl hne
    | cons x rest => rfl
  · unfold tripDays
    exact dayList_pairwise _ _
  · intro d hd
    have hvalS : ∀ c ∈ sortByStart (dayBookings bookings d),
        validHM c.start_time = true ∧ validHM c.end_time = true := by
      intro c hc
      exact hval c (mem_dayBookings (mem_sortByStart.mp hc))
    have hseS : ∀ c ∈ sortByStart (dayBookings bookings d),
        strLt c.end_time c.start_time = false := by
      intro c hc
      exact hse c (mem_dayBookings (mem_sortByStart.mp hc))
    have hsortS := sortByStart_sorted (dayBookings bookings d)
    constructor
    · unfold dayProcess
      split
      · exact List.chain'_singleton _
      · exact daySlots_chain hvalS hseS hsortS
    · intro s hs
      rcases mem_dayProcess hs with h0 | h1 | h2 | h3
      · subst h0; decide
      · have := mem_morningSlots h1
        omega
      · have := mem_gapSlots_basic h2
        omega
      · have := mem_eveningSlots h3
        omega

theorem analyze_ordering_witness :
    analyze_free_time_slots [⟨0, 0, "10:00", "11:00"⟩, ⟨0, 0, "15:00", "16:00"⟩] =
      (tripDays [⟨0, 0, "10:00", "11:00"⟩, ⟨0, 0, "15:00", "16:00"⟩]).flatMap
        (dayProcess [⟨0, 0, "10:00", "11:00"⟩, ⟨0, 0, "15:00", "16:00"⟩]) ∧
    time_to_minutes (FreeTimeSlot.mk "09:00" "10:00" 60 "Morning free time").start_time <
      time_to_minutes (FreeTimeSlot.mk "09:00" "10:00" 60 "Morning free time").end_time :=
  ⟨(analyze_ordering [⟨0, 0, "10:00", "11:00"⟩, ⟨0, 0, "15:00", "16:00"⟩] (by decide)
      (by decide) (by decide)).1,
    ((analyze_ordering [⟨0, 0, "10:00", "11:00"⟩, ⟨0, 0, "15:00", "16:00"⟩] (by decide)
        (by decide) (by decide)).2.2 0 (by decide)).2
      ⟨"09:00", "10:00", 60, "Morning free time"⟩ (by decide)⟩

end ItineraryAI
